import Mathlib

/-!
Shallow embedding of the `clixaw` command-line tool's core subsystems,
translated from the Python sources:

* `src/clixaw/cache.py`   — response cache (fingerprint keys, TTL expiry, eviction)
* `src/clixaw/history.py` — append-only command history with a 1000-entry cap
* `src/clixaw/cli.py`     — dangerous-command gate and layered config resolution
* `src/clixaw/config.py`  — config-file access (only its outputs are modelled)

Modelling conventions:

* Python `dict` values persisted as JSON objects become insertion-ordered
  association lists (`List (String × _)`); Python `dict` preserves insertion
  order and `d[k] = v` keeps the position of an existing key.
* Wall-clock time (`datetime.now()`) becomes an explicit `now : Int`
  (seconds); `datetime` subtraction and `timedelta(seconds=ttl)` comparison
  becomes integer subtraction and comparison.  ISO-8601 timestamp strings
  written by `datetime.isoformat` compare lexicographically in the same
  order as the instants they denote, so the sort key
  `x[1].get("timestamp", "")` is modelled by the integer timestamp.
* Functions that read or write files take the relevant state explicitly and
  return the updated state.
-/

namespace Clixaw

/-! ### Generic list helpers -/

/-- `takeLast n l` models the Python slice `l[-n:]` for `n ≥ 1`: the last
`min n (length l)` elements.  (Python's `l[-0:]` is the whole list; the one
caller that can hit `n = 0` branches on that case explicitly.) -/
def takeLast {α : Type} (n : Nat) (l : List α) : List α :=
  l.drop (l.length - n)

/-- Does `l` start with `pre`?  Helper for the substring test. -/
def listStartsWith : List Char → List Char → Bool
  | _, [] => true
  | [], _ :: _ => false
  | c :: cs, d :: ds => c == d && listStartsWith cs ds

/-- `containsSub sub hay` models the Python substring test `sub in hay`
on the character sequences of the two strings. -/
def containsSub (sub : List Char) : List Char → Bool
  | [] => listStartsWith [] sub
  | c :: rest => listStartsWith (c :: rest) sub || containsSub sub rest

/-! ### SHA-256

`cache.py` keys the cache by `hashlib.sha256(cache_string.encode("utf-8")).hexdigest()`.
We implement SHA-256 (FIPS 180-4) over `Nat` with explicit reduction mod `2 ^ 32`.
The round constants are derived, as in the standard, from the fractional parts
of the cube roots (respectively square roots) of the first primes. -/

/-- Binary search step for the integer cube root; maintains `lo ^ 3 ≤ n < hi ^ 3`. -/
def cbrtAux (n : Nat) : Nat → Nat → Nat → Nat
  | 0, lo, _ => lo
  | fuel + 1, lo, hi =>
    if hi ≤ lo + 1 then lo
    else
      let mid := (lo + hi) / 2
      if mid ^ 3 ≤ n then cbrtAux n fuel mid hi else cbrtAux n fuel lo mid

/-- Integer cube root: the largest `x` with `x ^ 3 ≤ n` (for `n < 2 ^ 192`). -/
def natCbrt (n : Nat) : Nat := cbrtAux n 200 0 (n + 1)

/-- The first 64 primes. -/
def shaPrimes : List Nat :=
  [2, 3, 5, 7, 11, 13, 17, 19, 23, 29, 31, 37, 41, 43, 47, 53, 59, 61, 67, 71,
   73, 79, 83, 89, 97, 101, 103, 107, 109, 113, 127, 131, 137, 139, 149, 151,
   157, 163, 167, 173, 179, 181, 191, 193, 197, 199, 211, 223, 227, 229, 233,
   239, 241, 251, 257, 263, 269, 271, 277, 281, 283, 293, 307, 311]

/-- `2 ^ 32`, the word modulus of SHA-256. -/
def w32 : Nat := 2 ^ 32

/-- SHA-256 round constants: first 32 fractional bits of the cube roots of
the first 64 primes. -/
def shaK : List Nat := shaPrimes.map fun p => natCbrt (p * 2 ^ 96) % w32

/-- SHA-256 initial state: first 32 fractional bits of the square roots of
the first 8 primes. -/
def shaH0 : List Nat := (shaPrimes.take 8).map fun p => Nat.sqrt (p * 2 ^ 64) % w32

/-- 32-bit rotate right. -/
def rotr (k x : Nat) : Nat := ((x >>> k) ||| (x <<< (32 - k))) % w32

/-- Big sigma-0 of the SHA-256 compression function. -/
def bigS0 (x : Nat) : Nat := rotr 2 x ^^^ rotr 13 x ^^^ rotr 22 x

/-- Big sigma-1 of the SHA-256 compression function. -/
def bigS1 (x : Nat) : Nat := rotr 6 x ^^^ rotr 11 x ^^^ rotr 25 x

/-- Small sigma-0 of the SHA-256 message schedule. -/
def smallS0 (x : Nat) : Nat := rotr 7 x ^^^ rotr 18 x ^^^ (x >>> 3)

/-- Small sigma-1 of the SHA-256 message schedule. -/
def smallS1 (x : Nat) : Nat := rotr 17 x ^^^ rotr 19 x ^^^ (x >>> 10)

/-- Pad a byte message to a multiple of 64 bytes: `0x80`, zeros, then the
bit length as 8 big-endian bytes. -/
def shaPad (msg : List Nat) : List Nat :=
  let bitLen := msg.length * 8
  let lenBytes := (List.range 8).map fun i => (bitLen >>> (8 * (7 - i))) % 256
  msg ++ [128] ++ List.replicate ((119 - msg.length % 64) % 64) 0 ++ lenBytes

/-- Group bytes into big-endian 32-bit words. -/
def bytesToWords : List Nat → List Nat
  | b0 :: b1 :: b2 :: b3 :: rest =>
    (((b0 * 256 + b1) * 256 + b2) * 256 + b3) :: bytesToWords rest
  | _ => []

/-- Extend 16 message words to the 64-word schedule. -/
def extendW (w : List Nat) : List Nat :=
  (List.range 48).foldl
    (fun w _ =>
      let n := w.length
      let x := (w.getD (n - 16) 0 + smallS0 (w.getD (n - 15) 0) +
                w.getD (n - 7) 0 + smallS1 (w.getD (n - 2) 0)) % w32
      w ++ [x])
    w

/-- One SHA-256 compression of a 64-byte block into the 8-word state. -/
def shaCompress (state : List Nat) (block : List Nat) : List Nat :=
  let w := extendW (bytesToWords block)
  let final := (List.range 64).foldl
    (fun st i =>
      match st with
      | [a, b, c, d, e, f, g, h] =>
        let ch := (e &&& f) ^^^ ((e ^^^ (w32 - 1)) &&& g)
        let maj := (a &&& b) ^^^ (a &&& c) ^^^ (b &&& c)
        let t1 := (h + bigS1 e + ch + shaK.getD i 0 + w.getD i 0) % w32
        let t2 := (bigS0 a + maj) % w32
        [(t1 + t2) % w32, a, b, c, (d + t1) % w32, e, f, g]
      | other => other)
    state
  List.zipWith (fun x y => (x + y) % w32) state final

/-- SHA-256 of a byte message, as the final 8-word state. -/
def sha256Words (msg : List Nat) : List Nat :=
  let padded := shaPad msg
  (List.range (padded.length / 64)).foldl
    (fun st i => shaCompress st ((padded.drop (64 * i)).take 64)) shaH0

/-- A 32-bit word as 8 lowercase hex digits. -/
def hexWord (x : Nat) : List Char :=
  let ds := Nat.toDigits 16 x
  List.replicate (8 - ds.length) '0' ++ ds

/-- Hex digest of the SHA-256 of a string's UTF-8 bytes, modelling the Python
expression `hashlib.sha256(s.encode("utf-8")).hexdigest()`. -/
def sha256Hex (s : String) : String :=
  ⟨((sha256Words (s.toUTF8.toList.map UInt8.toNat)).map hexWord).flatten⟩

/-! ### Cache data model (`cache.py`) -/

/-- One cache entry, as written by `set_cached_response` (`cache.py` lines
196-204).  The ISO timestamp string is modelled as integer seconds. -/
structure CacheEntry where
  timestamp : Int
  query : String
  command : String
  api_url : String
  provider : Option String
  model : Option String
deriving Repr, DecidableEq

/-- The cache file contents: a JSON object mapping cache keys to entries,
modelled as an insertion-ordered association list (Python `dict`). -/
abbrev Cache : Type := List (String × CacheEntry)

/-- Cache settings, as resolved by `get_cache_config` from the `[cache]`
section of the config file. -/
structure CacheConfig where
  ttl : Int
  max_size : Nat
  enabled : Bool
deriving Repr, DecidableEq

/-- Default cache TTL: 7 days (`cache.py` line 13). -/
def DEFAULT_CACHE_TTL_SECONDS : Int := 7 * 24 * 60 * 60

/-- Default max cache size: 1000 entries (`cache.py` line 16). -/
def DEFAULT_MAX_CACHE_SIZE : Nat := 1000

/-- Python `cache[key]` read guarded by `key in cache`: the first (only)
binding of `key`. -/
def dictGet : Cache → String → Option CacheEntry
  | [], _ => none
  | (k', v) :: rest, k => if k' == k then some v else dictGet rest k

/-- Python `cache[key] = value`: overwrite in place if the key is present,
otherwise append (Python dicts preserve insertion order). -/
def dictSet : Cache → String → CacheEntry → Cache
  | [], k, v => [(k, v)]
  | (k', v') :: rest, k, v =>
    if k' == k then (k, v) :: rest else (k', v') :: dictSet rest k v

/-- Python `del cache[key]`: drop the binding of `key`. -/
def dictDel (l : Cache) (k : String) : Cache :=
  l.filter fun p => !(p.1 == k)

/-- `generate_cache_key` (`cache.py` lines 47-72): SHA-256 of
`f"{query}|{api_url}|{provider or ''}|{model or ''}"`.  The `api_key`
argument is accepted but deliberately not hashed. -/
def generate_cache_key (query api_url : String)
    (provider api_key model : Option String) : String :=
  let cache_string :=
    query ++ "|" ++ api_url ++ "|" ++ provider.getD "" ++ "|" ++ model.getD ""
  sha256Hex cache_string

/-- Sorting of `cache.items()` by `x[1].get("timestamp", "")`
(`cache.py` lines 212-213); Python's `list.sort` is a stable merge sort,
as is `List.mergeSort`. -/
def sortByTimestamp (l : Cache) : Cache :=
  l.mergeSort fun a b => decide (a.2.timestamp ≤ b.2.timestamp)

/-- `get_cached_response` (`cache.py` lines 115-165).  Returns the cache
hit (if any) together with the cache as left on disk: the stale entry is
deleted and saved when the TTL has elapsed.  Timestamps are modelled as
well-formed integers, so the `ValueError` branch for unparseable timestamp
strings does not arise. -/
def get_cached_response (cfg : CacheConfig) (cache : Cache) (now : Int)
    (query api_url : String) (provider api_key model : Option String) :
    Option String × Cache :=
  if !cfg.enabled then (none, cache)
  else
    let cache_key := generate_cache_key query api_url provider api_key model
    match dictGet cache cache_key with
    | none => (none, cache)
    | some entry =>
      if now - entry.timestamp > cfg.ttl then (none, dictDel cache cache_key)
      else (some entry.command, cache)

/-- `set_cached_response` (`cache.py` lines 168-218).  Inserts the entry,
then, if the size exceeds `max_size`, keeps the slice `entries[-max_size:]`
of the timestamp-sorted entries — which for `max_size = 0` is the whole
list, since Python's `l[-0:]` is `l[0:]`. -/
def set_cached_response (cfg : CacheConfig) (cache : Cache) (now : Int)
    (query command api_url : String) (provider api_key model : Option String) :
    Cache :=
  if !cfg.enabled then cache
  else
    let cache_key := generate_cache_key query api_url provider api_key model
    let entry : CacheEntry :=
      { timestamp := now, query := query, command := command,
        api_url := api_url, provider := provider, model := model }
    let cache := dictSet cache cache_key entry
    if cache.length > cfg.max_size then
      let sorted := sortByTimestamp cache
      if cfg.max_size = 0 then sorted else takeLast cfg.max_size sorted
    else cache

/-! ### History data model (`history.py`) -/

/-- One history entry, as written by `add_to_history` (`history.py` lines
73-79). -/
structure HistoryEntry where
  timestamp : Int
  query : String
  command : String
  executed : Bool
  exit_code : Option Int
deriving Repr, DecidableEq

/-- `add_to_history` (`history.py` lines 56-87): append the new entry, then
keep only the last 1000 entries (`history[-1000:]`). -/
def add_to_history (history : List HistoryEntry) (now : Int)
    (query command : String) (executed : Bool) (exit_code : Option Int) :
    List HistoryEntry :=
  let entry : HistoryEntry :=
    { timestamp := now, query := query, command := command,
      executed := executed, exit_code := exit_code }
  let history := history ++ [entry]
  if history.length > 1000 then takeLast 1000 history else history

/-! ### Loading persisted state (`cache.py` `load_cache`, `history.py`
`load_history`)

Both loaders run `json.load(f)` inside `try: ... except
(json.JSONDecodeError, IOError):` and fall back to an empty value.  The
file was opened with `encoding="utf-8"`, so `json.load` first decodes the
raw file bytes; a file that is not valid UTF-8 makes that decoding raise
`UnicodeDecodeError` — a `ValueError`, caught by neither clause — which
propagates to the caller.  The file is therefore modelled by its raw
bytes, UTF-8 decoding by a strict decoder `utf8Decode` (the rules of
Python's `utf-8` codec: no continuation-byte starts, no overlong forms,
no surrogates, nothing above U+10FFFF), and JSON parsing of the decoded
text by an arbitrary `parse : String → Option Json`
(`none` = `json.JSONDecodeError`). -/

/-- Untyped JSON values, the output type of `json.load`. -/
inductive Json where
  | null : Json
  | bool (b : Bool) : Json
  | num (n : Int) : Json
  | str (s : String) : Json
  | arr (elems : List Json) : Json
  | obj (fields : List (String × Json)) : Json

/-- Strict UTF-8 decoding, fuel-bounded (each step consumes at least one
byte, so fuel = byte count suffices).  Returns `none` exactly when Python's
`utf-8` codec raises `UnicodeDecodeError`. -/
def utf8DecodeAux : Nat → List Nat → Option (List Char)
  | _, [] => some []
  | 0, _ :: _ => none
  | fuel + 1, b :: rest =>
    if b < 128 then
      (utf8DecodeAux fuel rest).map fun cs => Char.ofNat b :: cs
    else if b < 194 then none
    else if b < 224 then
      match rest with
      | b1 :: rest2 =>
        if 128 ≤ b1 ∧ b1 < 192 then
          (utf8DecodeAux fuel rest2).map fun cs =>
            Char.ofNat ((b - 192) * 64 + (b1 - 128)) :: cs
        else none
      | [] => none
    else if b < 240 then
      match rest with
      | b1 :: b2 :: rest3 =>
        if (if b = 224 then 160 ≤ b1 ∧ b1 < 192
            else if b = 237 then 128 ≤ b1 ∧ b1 < 160
            else 128 ≤ b1 ∧ b1 < 192) ∧ 128 ≤ b2 ∧ b2 < 192 then
          (utf8DecodeAux fuel rest3).map fun cs =>
            Char.ofNat (((b - 224) * 64 + (b1 - 128)) * 64 + (b2 - 128)) :: cs
        else none
      | _ => none
    else if b < 245 then
      match rest with
      | b1 :: b2 :: b3 :: rest4 =>
        if (if b = 240 then 144 ≤ b1 ∧ b1 < 192
            else if b = 244 then 128 ≤ b1 ∧ b1 < 144
            else 128 ≤ b1 ∧ b1 < 192) ∧
            128 ≤ b2 ∧ b2 < 192 ∧ 128 ≤ b3 ∧ b3 < 192 then
          (utf8DecodeAux fuel rest4).map fun cs =>
            Char.ofNat ((((b - 240) * 64 + (b1 - 128)) * 64 + (b2 - 128)) * 64 + (b3 - 128)) :: cs
        else none
      | _ => none
    else none

/-- Decode a byte sequence as UTF-8, as Python's strict `utf-8` codec does:
`some` the decoded text, or `none` for a `UnicodeDecodeError`. -/
def utf8Decode (bytes : List Nat) : Option (List Char) :=
  utf8DecodeAux bytes.length bytes

/-- Outcome of attempting to read the persisted file: the file may be
missing, unreadable (`IOError` while opening or reading), or present with
some raw bytes. -/
inductive ReadResult where
  | missing : ReadResult
  | ioError : ReadResult
  | content (bytes : List Nat) : ReadResult

/-- What a call to `load_cache` or `load_history` does: return a value to
the caller, or let an exception escape. -/
inductive LoadOutcome where
  | ok (v : Json) : LoadOutcome
  | unicodeDecodeError : LoadOutcome

/-- `load_cache` (`cache.py` lines 75-92): a missing file, an `IOError`,
or a `json.JSONDecodeError` all yield the empty object `{}` — but a file
whose bytes are not valid UTF-8 raises `UnicodeDecodeError` out of
`json.load`, which `except (json.JSONDecodeError, IOError)` does not
catch. -/
def load_cache (parse : String → Option Json) : ReadResult → LoadOutcome
  | .missing => .ok (.obj [])
  | .ioError => .ok (.obj [])
  | .content bytes =>
    match utf8Decode bytes with
    | none => .unicodeDecodeError
    | some chars =>
      match parse (String.mk chars) with
      | none => .ok (.obj [])
      | some v => .ok v

/-- `load_history` (`history.py` lines 16-33): the same shape, with the
empty list `[]` as the fallback — and the same uncaught
`UnicodeDecodeError` on non-UTF-8 file bytes. -/
def load_history (parse : String → Option Json) : ReadResult → LoadOutcome
  | .missing => .ok (.arr [])
  | .ioError => .ok (.arr [])
  | .content bytes =>
    match utf8Decode bytes with
    | none => .unicodeDecodeError
    | some chars =>
      match parse (String.mk chars) with
      | none => .ok (.arr [])
      | some v => .ok v

/-! ### Dangerous-command gate (`cli.py`) -/

/-- `DANGEROUS_PATTERNS` (`cli.py` lines 17-30). -/
def DANGEROUS_PATTERNS : List String :=
  ["rm -rf", "rm -r", "rm -f", "rmrf", "format", "mkfs", "dd if=",
   "> /dev/sd", "shutdown", "reboot", "halt", "poweroff"]

/-- Python `command.lower()`, modelled per character with `Char.toLower`.
This agrees with Python's `str.lower` on ASCII characters and on `ß`
(which lowercases to itself); Python's remaining one-to-many Unicode case
mappings are not modelled, and the case-invariance theorem below
quantifies only over ASCII commands. -/
def pyLower (s : String) : String := ⟨s.data.map Char.toLower⟩

/-- One character of Python's `str.upper`: `ß` uppercases to the two
characters `SS` (Python's case mapping is one-to-many); ASCII characters
map through `Char.toUpper`.  Other non-ASCII mappings are not modelled. -/
def upperChars (c : Char) : List Char :=
  if c = 'ß' then ['S', 'S'] else [c.toUpper]

/-- Python `command.upper()`: per-character expansion by `upperChars`,
faithful on ASCII characters and on `ß`. -/
def pyUpper (s : String) : String := ⟨(s.data.map upperChars).flatten⟩

/-- `is_dangerous_command` (`cli.py` lines 33-36): case-insensitive
substring match of the fixed patterns against the command. -/
def is_dangerous_command (command : String) : Bool :=
  let command_lower := pyLower command
  DANGEROUS_PATTERNS.any fun pattern => containsSub pattern.data command_lower.data

/-- Outcome of `execute_command`: either the confirmation was declined and
nothing ran, or the shell ran `cmd` and returned `code`. -/
inductive ExecOutcome where
  | aborted (code : Int) : ExecOutcome
  | ran (cmd : String) (code : Int) : ExecOutcome
deriving Repr, DecidableEq

/-- The exit status reported to the caller of `execute_command`. -/
def ExecOutcome.exitCode : ExecOutcome → Int
  | .aborted code => code
  | .ran _ code => code

/-- `execute_command` (`cli.py` lines 39-79).  `userConfirms` is the answer
to `click.confirm`; `shell` gives the return code of
`subprocess.run(command, shell=True)` (the `KeyboardInterrupt` and generic
exception handlers around that call are not modelled). -/
def execute_command (command : String) (confirm : Bool) (userConfirms : Bool)
    (shell : String → Int) : ExecOutcome :=
  if confirm && is_dangerous_command command then
    if userConfirms then .ran command (shell command)
    else .aborted 1
  else .ran command (shell command)

/-! ### Layered configuration resolution (`cli.py` `main`, lines 199-209)

Each of the four settings is resolved by the Python expression
`flag_param or os.getenv("XAW_...") or config_provider.get("...")`,
where `flag_param` is the click option value: click itself substitutes the
environment variable when the flag is absent (`envvar="XAW_..."`), so
`flag_param` is the flag if given, else the environment value.  Python `or`
skips falsy values, i.e. `None` and the empty string. -/

/-- Python `a or b` on optional strings: `None` and `""` are falsy. -/
def pyOr (a b : Option String) : Option String :=
  match a with
  | none => b
  | some s => if s = "" then b else some s

/-- The value click passes for an option declared with `default=None,
envvar=...`: the command-line flag when explicitly given, otherwise the
environment variable when set, otherwise `None`. -/
def clickValue (flag envVal : Option String) : Option String :=
  match flag with
  | some v => some v
  | none => envVal

/-- Resolution of one setting in `main` (`cli.py` lines 204-209):
`final_x = x or os.getenv("XAW_X") or config_provider.get("x")`, with `x`
the click option value. -/
def resolve_setting (flag envVal cfgVal : Option String) : Option String :=
  pyOr (pyOr (clickValue flag envVal) envVal) cfgVal

/-- `get_api_url` (`api.py` lines 12-14):
`os.getenv("XAW_API_URL", "https://cmd.xaw.me")`. -/
def get_api_url (envVal : Option String) : String :=
  envVal.getD "https://cmd.xaw.me"

/-- Python `s.rstrip("/")`. -/
def rstripSlash (s : String) : String :=
  ⟨(s.data.reverse.dropWhile (· == '/')).reverse⟩

/-- The API URL ultimately used for the request: `main` resolves
flag/env/config (`cli.py` line 209) and passes the result to
`translate_query`, which substitutes the default for `None` and strips
trailing slashes (`api.py` lines 43-47). -/
def effective_api_url (flag envVal cfgVal : Option String) : String :=
  match resolve_setting flag envVal cfgVal with
  | some u => rstripSlash u
  | none => rstripSlash (get_api_url envVal)

/-! ### Helper lemmas -/

theorem toNat_ofNat_valid {n : Nat} (h : n < 55296) : (Char.ofNat n).toNat = n := by
  rw [Char.ofNat, dif_pos (Or.inl h)]
  rfl

theorem toLower_toUpper (c : Char) : c.toUpper.toLower = c.toLower := by
  simp only [Char.toUpper, Char.toLower]
  by_cases h : c.toNat ≥ 97 ∧ c.toNat ≤ 122
  · rw [if_pos h]
    rw [toNat_ofNat_valid (by omega)]
    rw [if_pos (by omega), if_neg (by omega)]
    have h32 : c.toNat - 32 + 32 = c.toNat := by omega
    rw [h32, Char.ofNat_toNat]
  · rw [if_neg h]

theorem toLower_toLower (c : Char) : c.toLower.toLower = c.toLower := by
  simp only [Char.toLower]
  by_cases h : c.toNat ≥ 65 ∧ c.toNat ≤ 90
  · rw [if_pos h]
    rw [toNat_ofNat_valid (by omega)]
    rw [if_neg (by omega)]
  · rw [if_neg h, if_neg h]

theorem flatten_singleton_map {α β : Type} (f : α → β) (l : List α) :
    (l.map fun a => [f a]).flatten = l.map f := by
  induction l with
  | nil => rfl
  | cons a l ih => simp [ih]

theorem pyUpper_ascii {s : String} (h : ∀ c ∈ s.data, c.toNat < 128) :
    pyUpper s = ⟨s.data.map Char.toUpper⟩ := by
  apply congrArg String.mk
  have h1 : s.data.map upperChars = s.data.map fun c => [c.toUpper] :=
    List.map_congr_left fun c hc => by
      unfold upperChars
      exact if_neg fun he => absurd (h c hc) (by rw [he]; decide)
  rw [h1]
  exact flatten_singleton_map Char.toUpper s.data

theorem pyLower_map_toUpper (s : String) : pyLower ⟨s.data.map Char.toUpper⟩ = pyLower s := by
  show String.mk ((s.data.map Char.toUpper).map Char.toLower) =
    String.mk (s.data.map Char.toLower)
  rw [List.map_map]
  exact congrArg String.mk (List.map_congr_left fun c _ => toLower_toUpper c)

theorem pyLower_pyLower (s : String) : pyLower (pyLower s) = pyLower s := by
  show String.mk ((s.data.map Char.toLower).map Char.toLower) =
    String.mk (s.data.map Char.toLower)
  rw [List.map_map]
  exact congrArg String.mk (List.map_congr_left fun c _ => toLower_toLower c)

/-! ### C6, C7, C8, C9, C10, C1 -/

/-- C6: the cache fingerprint is deterministic and independent of the API
key: two calls of `generate_cache_key` agreeing on query, API URL, provider
and model produce the same SHA-256 fingerprint whatever the two `api_key`
arguments are. -/
theorem fingerprint_independent_of_api_key (query api_url : String)
    (provider model key1 key2 : Option String) :
    generate_cache_key query api_url provider key1 model =
      generate_cache_key query api_url provider key2 model := rfl

/-- C7 (code bug): a persisted file whose bytes are not valid UTF-8 —
here the single byte `0xFF` — makes `json.load` raise
`UnicodeDecodeError`, which escapes `except (json.JSONDecodeError,
IOError)` and propagates to the caller, for every JSON parser behaviour.
The paths the claim describes correctly are also shown: a missing file, an
`IOError`, and decodable-but-unparseable contents (the ASCII bytes of
`not json` under a parser that rejects them) all yield the empty object
(cache) or empty array (history). -/
theorem load_raises_on_invalid_utf8 (parse : String → Option Json) :
    load_cache parse (.content [255]) = .unicodeDecodeError ∧
    load_history parse (.content [255]) = .unicodeDecodeError ∧
    load_cache parse .missing = .ok (.obj []) ∧
    load_cache parse .ioError = .ok (.obj []) ∧
    load_history parse .missing = .ok (.arr []) ∧
    load_history parse .ioError = .ok (.arr []) ∧
    load_cache (fun _ => none) (.content [110, 111, 116, 32, 106, 115, 111, 110]) =
      .ok (.obj []) ∧
    load_history (fun _ => none) (.content [110, 111, 116, 32, 106, 115, 111, 110]) =
      .ok (.arr []) := by
  exact ⟨rfl, rfl, rfl, rfl, rfl, rfl, rfl, rfl⟩

/-- C8: with confirmation enabled, a dangerous command whose confirmation
prompt is declined yields the abort outcome with exit status 1 (non-zero):
the result does not depend on the subordinate shell at all, and is never a
`ran` outcome. -/
theorem decline_aborts_without_running (command : String) (shell : String → Int)
    (h : is_dangerous_command command = true) :
    execute_command command true false shell = .aborted 1 ∧
    (execute_command command true false shell).exitCode ≠ 0 ∧
    (∀ shell' : String → Int,
      execute_command command true false shell' = execute_command command true false shell) ∧
    ∀ c code, execute_command command true false shell ≠ .ran c code := by
  simp [execute_command, h, ExecOutcome.exitCode]

/-- C8 witness: declining the prompt for `sudo rm -rf /` aborts with status
1 without starting a shell. -/
theorem decline_aborts_without_running_witness :
    is_dangerous_command "sudo rm -rf /" = true ∧
    execute_command "sudo rm -rf /" true false (fun _ => 0) = .aborted 1 := by
  have h := decline_aborts_without_running "sudo rm -rf /" (fun _ => 0) (by decide)
  exact ⟨by decide, h.1⟩

/-- C9 counterexample: uppercasing can change the verdict, because
Python's `str.upper` maps one character to many: `mkfß` is not dangerous,
but its uppercase `MKFSS` lowercases to `mkfss`, which contains the
pattern `mkfs`. -/
theorem case_change_changes_verdict :
    is_dangerous_command "mkfß" = false ∧
    pyUpper "mkfß" = "MKFSS" ∧
    is_dangerous_command (pyUpper "mkfß") = true := by
  exact ⟨by decide, by decide, by decide⟩

/-- C9 (amended): dangerous-command detection is a case-insensitive
substring match: `sudo rm -rf /` is dangerous, `ls -la` is not, and for
every command consisting solely of ASCII characters, upper- or
lower-casing it does not change the verdict. -/
theorem dangerous_detection_ascii_case_insensitive :
    is_dangerous_command "sudo rm -rf /" = true ∧
    is_dangerous_command "ls -la" = false ∧
    ∀ command : String, (∀ c ∈ command.data, c.toNat < 128) →
      is_dangerous_command (pyUpper command) = is_dangerous_command command ∧
      is_dangerous_command (pyLower command) = is_dangerous_command command := by
  refine ⟨by decide, by decide, fun command h => ⟨?_, ?_⟩⟩
  · rw [pyUpper_ascii h]
    unfold is_dangerous_command
    rw [pyLower_map_toUpper]
  · unfold is_dangerous_command
    rw [pyLower_pyLower]

/-- C9 (amended) witness: the ASCII command `sudo rm -rf /` keeps its
verdict under upper- and lower-casing. -/
theorem dangerous_detection_ascii_case_insensitive_witness :
    (∀ c ∈ ("sudo rm -rf /" : String).data, c.toNat < 128) ∧
    is_dangerous_command (pyUpper "sudo rm -rf /") = is_dangerous_command "sudo rm -rf /" ∧
    is_dangerous_command (pyLower "sudo rm -rf /") = is_dangerous_command "sudo rm -rf /" := by
  have h := dangerous_detection_ascii_case_insensitive.2.2 "sudo rm -rf /" (by decide)
  exact ⟨by decide, h.1, h.2⟩

/-- C10: any command whose lowercased text contains the bare substring
`format` is classified as dangerous (the pattern list has no word
boundaries), and with confirmation enabled a declined prompt aborts it. -/
theorem bare_format_substring_dangerous (command : String) (shell : String → Int)
    (h : containsSub "format".data (pyLower command).data = true) :
    is_dangerous_command command = true ∧
    execute_command command true false shell = .aborted 1 := by
  have hd : is_dangerous_command command = true := by
    unfold is_dangerous_command
    rw [List.any_eq_true]
    exact ⟨"format", by decide, h⟩
  exact ⟨hd, by simp [execute_command, hd]⟩

/-- C10 witness: `git log --format=oneline` contains `format` and is
flagged as dangerous; declining the prompt aborts it. -/
theorem bare_format_substring_dangerous_witness :
    containsSub "format".data (pyLower "git log --format=oneline").data = true ∧
    is_dangerous_command "git log --format=oneline" = true ∧
    execute_command "git log --format=oneline" true false (fun _ => 0) = .aborted 1 := by
  have h := bare_format_substring_dangerous "git log --format=oneline" (fun _ => 0) (by decide)
  exact ⟨by decide, h.1, h.2⟩

/-- C1 counterexample: when both an explicit CLI flag and an environment
variable supply a value for a setting, the resolver in `main` picks the CLI
flag, not the environment variable: the claimed priority
`env vars > CLI flags` fails on the code. -/
theorem cli_flag_beats_env_var :
    resolve_setting (some "cli-value") (some "env-value") (some "cfg-value") = some "cli-value" ∧
    (some "cli-value" : Option String) ≠ some "env-value" := by
  exact ⟨rfl, by decide⟩

/-- C1 (amended): the resolver picks values by the priority
CLI flags > env vars > config file > defaults: a non-empty explicit flag
wins over everything; with no flag (or an empty one), a non-empty
environment value wins over the config file; with neither, the config file
value is used as-is; and with no layer supplying an API URL the default
`https://cmd.xaw.me` is used. -/
theorem layered_config_priority (flag envVal cfgVal : Option String) :
    (∀ s, flag = some s → s ≠ "" → resolve_setting flag envVal cfgVal = some s) ∧
    ((flag = none ∨ flag = some "") →
      ∀ e, envVal = some e → e ≠ "" → resolve_setting flag envVal cfgVal = some e) ∧
    ((flag = none ∨ flag = some "") → (envVal = none ∨ envVal = some "") →
      resolve_setting flag envVal cfgVal = cfgVal) ∧
    effective_api_url none none none = "https://cmd.xaw.me" := by
  refine ⟨?_, ?_, ?_, by decide⟩
  · rintro s rfl hs
    simp [resolve_setting, clickValue, pyOr, hs]
  · rintro (rfl | rfl) e rfl he <;> simp [resolve_setting, clickValue, pyOr, he]
  · rintro (rfl | rfl) (rfl | rfl) <;> cases cfgVal <;> simp [resolve_setting, clickValue, pyOr]

/-- C1 (amended) witness: at concrete layer values, the flag wins over the
environment, the environment wins over the config file, and the config file
is used when the other layers are absent. -/
theorem layered_config_priority_witness :
    resolve_setting (some "openai") (some "gemini") none = some "openai" ∧
    resolve_setting none (some "gemini") (some "cfgprov") = some "gemini" ∧
    resolve_setting none none (some "cfgprov") = some "cfgprov" := by
  refine ⟨(layered_config_priority (some "openai") (some "gemini") none).1 "openai" rfl (by decide),
    (layered_config_priority none (some "gemini") (some "cfgprov")).2.1 (.inl rfl) "gemini" rfl (by decide),
    (layered_config_priority none none (some "cfgprov")).2.2.1 (.inl rfl) (.inl rfl)⟩

/-! ### C3: history cap -/

theorem takeLast_eq_self {α : Type} {n : Nat} {l : List α} (h : l.length ≤ n) :
    takeLast n l = l := by
  unfold takeLast
  rw [Nat.sub_eq_zero_of_le h, List.drop_zero]

theorem takeLast_length {α : Type} (n : Nat) (l : List α) :
    (takeLast n l).length = min n l.length := by
  unfold takeLast
  rw [List.length_drop]
  omega

theorem takeLast_idem_append {α : Type} {n : Nat} (hn : 1 ≤ n) (l : List α) (e : α) :
    takeLast n (takeLast n l ++ [e]) = takeLast n (l ++ [e]) := by
  by_cases h : l.length ≤ n
  · rw [takeLast_eq_self h]
  · push_neg at h
    have hm : (takeLast n l).length = n := by rw [takeLast_length]; omega
    have i1 : (takeLast n l ++ [e]).length - n = 1 := by
      rw [List.length_append, hm]; simp
    have i2 : (l ++ [e]).length - n = l.length + 1 - n := by simp
    show (takeLast n l ++ [e]).drop ((takeLast n l ++ [e]).length - n) =
      (l ++ [e]).drop ((l ++ [e]).length - n)
    rw [i1, i2]
    rw [List.drop_append_of_le_length (by rw [hm]; omega),
      List.drop_append_of_le_length (by omega)]
    show (l.drop (l.length - n)).drop 1 ++ [e] = _
    rw [List.drop_drop]
    congr 2
    omega

theorem add_to_history_takeLast (es : List HistoryEntry) (now : Int) (q c : String)
    (b : Bool) (x : Option Int) :
    add_to_history (takeLast 1000 es) now q c b x =
      takeLast 1000 (es ++ [⟨now, q, c, b, x⟩]) := by
  unfold add_to_history
  by_cases h : es.length ≤ 1000
  · rw [takeLast_eq_self h]
    by_cases h2 : es.length = 1000
    · rw [if_pos (by simp [h2])]
    · rw [if_neg (by simp; omega)]
      rw [takeLast_eq_self (by simp; omega)]
  · push_neg at h
    have hlen : (takeLast 1000 es).length = 1000 := by rw [takeLast_length]; omega
    rw [if_pos (by simp [hlen])]
    exact takeLast_idem_append (by omega) es _

theorem foldl_add_to_history (es : List HistoryEntry) :
    es.foldl (fun h e => add_to_history h e.timestamp e.query e.command e.executed e.exit_code)
      [] = takeLast 1000 es := by
  induction es using List.reverseRecOn with
  | nil => rfl
  | append_singleton es e ih =>
    rw [List.foldl_append]
    simp only [List.foldl_cons, List.foldl_nil]
    rw [ih, add_to_history_takeLast]

/-- C3: after any append the history holds at most 1000 entries; appending
to a history of exactly 1000 entries drops the oldest entry (FIFO); and
appending 1001 entries in sequence to an empty history leaves exactly the
most recent 1000. -/
theorem history_capped_at_1000 :
    (∀ (history : List HistoryEntry) (now : Int) (q c : String) (b : Bool) (x : Option Int),
      (add_to_history history now q c b x).length ≤ 1000) ∧
    (∀ (history : List HistoryEntry) (now : Int) (q c : String) (b : Bool) (x : Option Int),
      history.length = 1000 →
      add_to_history history now q c b x = history.tail ++ [⟨now, q, c, b, x⟩]) ∧
    (∀ es : List HistoryEntry, es.length = 1001 →
      es.foldl (fun h e => add_to_history h e.timestamp e.query e.command e.executed e.exit_code)
        [] = es.tail) := by
  refine ⟨fun history now q c b x => ?_, fun history now q c b x h1000 => ?_,
    fun es h1001 => ?_⟩
  · unfold add_to_history
    by_cases h : (history ++ [(⟨now, q, c, b, x⟩ : HistoryEntry)]).length > 1000
    · rw [if_pos h, takeLast_length]
      omega
    · rw [if_neg h]
      omega
  · unfold add_to_history
    rw [if_pos (by simp [h1000])]
    show (history ++ [(⟨now, q, c, b, x⟩ : HistoryEntry)]).drop
      ((history ++ [(⟨now, q, c, b, x⟩ : HistoryEntry)]).length - 1000) = _
    have i1 : (history ++ [(⟨now, q, c, b, x⟩ : HistoryEntry)]).length - 1000 = 1 := by
      simp [h1000]
    rw [i1, List.drop_append_of_le_length (by omega), List.drop_one]
  · rw [foldl_add_to_history]
    show es.drop (es.length - 1000) = es.tail
    rw [h1001, List.drop_one]

/-- C3 witness: at a concrete full history of 1000 entries, the append
keeps the size at 1000 and drops the oldest entry; a concrete sequence of
1001 appends leaves the most recent 1000. -/
theorem history_capped_at_1000_witness :
    (add_to_history (List.replicate 1000 ⟨0, "q", "c", false, none⟩) 1 "q2" "c2" true
      (some 0)).length ≤ 1000 ∧
    (List.replicate 1000 (⟨0, "q", "c", false, none⟩ : HistoryEntry)).length = 1000 ∧
    add_to_history (List.replicate 1000 ⟨0, "q", "c", false, none⟩) 1 "q2" "c2" true (some 0) =
      (List.replicate 1000 (⟨0, "q", "c", false, none⟩ : HistoryEntry)).tail ++
        [⟨1, "q2", "c2", true, some 0⟩] ∧
    (List.replicate 1001 (⟨0, "q", "c", false, none⟩ : HistoryEntry)).length = 1001 ∧
    (List.replicate 1001 (⟨0, "q", "c", false, none⟩ : HistoryEntry)).foldl
      (fun h e => add_to_history h e.timestamp e.query e.command e.executed e.exit_code) [] =
      (List.replicate 1001 (⟨0, "q", "c", false, none⟩ : HistoryEntry)).tail := by
  refine ⟨history_capped_at_1000.1 _ 1 "q2" "c2" true (some 0),
    by rw [List.length_replicate],
    history_capped_at_1000.2.1 _ 1 "q2" "c2" true (some 0) (by rw [List.length_replicate]),
    by rw [List.length_replicate],
    history_capped_at_1000.2.2 _ (by rw [List.length_replicate])⟩

/-! ### Dictionary lemmas -/

theorem dictGet_dictDel (l : Cache) (k : String) : dictGet (dictDel l k) k = none := by
  induction l with
  | nil => rfl
  | cons p rest ih =>
    obtain ⟨k', v⟩ := p
    unfold dictDel at ih ⊢
    rw [List.filter_cons]
    by_cases h : (k' == k) = true
    · simp only [h, Bool.not_true, Bool.false_eq_true, if_false]
      exact ih
    · rw [if_pos (by simp [h])]
      simp only [dictGet, h, Bool.false_eq_true, if_false]
      exact ih

theorem dictGet_dictSet (l : Cache) (k : String) (v : CacheEntry) :
    dictGet (dictSet l k v) k = some v := by
  induction l with
  | nil => simp [dictSet, dictGet]
  | cons p rest ih =>
    obtain ⟨k', v'⟩ := p
    by_cases h : (k' == k) = true
    · simp [dictSet, h, dictGet]
    · simp only [dictSet, h, Bool.false_eq_true, if_false, dictGet]
      exact ih

theorem mem_dictSet {l : Cache} {k : String} {v : CacheEntry} {p : String × CacheEntry}
    (h : p ∈ dictSet l k v) : p = (k, v) ∨ p ∈ l := by
  induction l with
  | nil => simpa [dictSet] using h
  | cons q rest ih =>
    obtain ⟨k', v'⟩ := q
    by_cases hk : (k' == k) = true
    · simp only [dictSet, hk, if_true] at h
      rcases List.mem_cons.mp h with h1 | h2
      · exact .inl h1
      · exact .inr (List.mem_cons_of_mem _ h2)
    · simp only [dictSet, hk, Bool.false_eq_true, if_false] at h
      rcases List.mem_cons.mp h with h1 | h2
      · exact .inr (h1 ▸ List.mem_cons_self _ _)
      · rcases ih h2 with h3 | h4
        · exact .inl h3
        · exact .inr (List.mem_cons_of_mem _ h4)

theorem self_mem_dictSet (l : Cache) (k : String) (v : CacheEntry) :
    (k, v) ∈ dictSet l k v := by
  induction l with
  | nil => simp [dictSet]
  | cons q rest ih =>
    obtain ⟨k', v'⟩ := q
    by_cases hk : (k' == k) = true
    · simp [dictSet, hk]
    · simp only [dictSet, hk, Bool.false_eq_true, if_false, List.mem_cons]
      exact .inr ih

theorem length_le_dictSet (l : Cache) (k : String) (v : CacheEntry) :
    l.length ≤ (dictSet l k v).length := by
  induction l with
  | nil => simp [dictSet]
  | cons q rest ih =>
    obtain ⟨k', v'⟩ := q
    by_cases hk : (k' == k) = true
    · simp [dictSet, hk]
    · simp only [dictSet, hk, Bool.false_eq_true, if_false, List.length_cons]
      omega

theorem keys_dictSet {x : String} {l : Cache} {k : String} {v : CacheEntry}
    (h : x ∈ (dictSet l k v).map Prod.fst) : x = k ∨ x ∈ l.map Prod.fst := by
  rw [List.mem_map] at h
  obtain ⟨p, hp, hx⟩ := h
  rcases mem_dictSet hp with h1 | h2
  · exact .inl (by rw [← hx, h1])
  · exact .inr (by rw [← hx]; exact List.mem_map_of_mem _ h2)

theorem nodupKeys_dictSet {l : Cache} {k : String} {v : CacheEntry}
    (h : (l.map Prod.fst).Nodup) : ((dictSet l k v).map Prod.fst).Nodup := by
  induction l with
  | nil => simp [dictSet]
  | cons q rest ih =>
    obtain ⟨k', v'⟩ := q
    rw [List.map_cons, List.nodup_cons] at h
    by_cases hk : (k' == k) = true
    · have hk' : k' = k := by simpa using hk
      simp only [dictSet, hk, if_true, List.map_cons, List.nodup_cons]
      exact ⟨hk' ▸ h.1, h.2⟩
    · simp only [dictSet, hk, Bool.false_eq_true, if_false, List.map_cons, List.nodup_cons]
      refine ⟨fun hmem => ?_, ih h.2⟩
      rcases keys_dictSet hmem with h1 | h2
      · exact hk (by simp [h1])
      · exact h.1 h2

theorem count_dictSet_self {l : Cache} {k : String} {v : CacheEntry}
    (h : (k, v) ∉ l) : (dictSet l k v).count (k, v) = 1 := by
  induction l with
  | nil => simp [dictSet]
  | cons q rest ih =>
    obtain ⟨k', v'⟩ := q
    rw [List.mem_cons, not_or] at h
    by_cases hk : (k' == k) = true
    · simp only [dictSet, hk, if_true, List.count_cons]
      rw [List.count_eq_zero.mpr h.2]
      simp
    · have h1 : ¬(k' = k) := fun h' => hk (by simp [h'])
      have h2 : ¬((k, v) = (k', v')) := fun hq => h1 (congrArg Prod.fst hq).symm
      have h3 : ¬((k', v') = (k, v)) := fun hq => h1 (congrArg Prod.fst hq)
      simp only [dictSet, hk, Bool.false_eq_true, if_false]
      simp [List.count_cons, h2, h3, ih h.2]

theorem dictGet_of_mem_nodupKeys {l : Cache} {k : String} {v : CacheEntry}
    (hmem : (k, v) ∈ l) (hnodup : (l.map Prod.fst).Nodup) : dictGet l k = some v := by
  induction l with
  | nil => simp at hmem
  | cons q rest ih =>
    obtain ⟨k', v'⟩ := q
    rw [List.map_cons, List.nodup_cons] at hnodup
    rcases List.mem_cons.mp hmem with h1 | h2
    · injection h1 with hk hv
      simp [dictGet, ← hk, ← hv]
    · have hk : ¬(k' == k) = true := by
        intro hb
        have hkk : k' = k := by simpa using hb
        apply hnodup.1
        rw [hkk]
        exact List.mem_map.mpr ⟨(k, v), h2, rfl⟩
      simp only [dictGet, hk, Bool.false_eq_true, if_false]
      exact ih h2 hnodup.2

/-! ### C4: TTL expiry -/

/-- C4: with caching enabled, a lookup that finds the entry under the
computed fingerprint returns absent and deletes the entry when the entry's
timestamp is older than `now - ttl`, and returns the stored command
(leaving the cache unchanged) when `now - timestamp ≤ ttl`. -/
theorem cache_ttl_expiry (cfg : CacheConfig) (cache : Cache) (now : Int)
    (query api_url : String) (provider api_key model : Option String) (entry : CacheEntry)
    (hen : cfg.enabled = true)
    (hmem : dictGet cache (generate_cache_key query api_url provider api_key model) =
      some entry) :
    (entry.timestamp < now - cfg.ttl →
      (get_cached_response cfg cache now query api_url provider api_key model).1 = none ∧
      dictGet (get_cached_response cfg cache now query api_url provider api_key model).2
        (generate_cache_key query api_url provider api_key model) = none) ∧
    (now - entry.timestamp ≤ cfg.ttl →
      get_cached_response cfg cache now query api_url provider api_key model =
        (some entry.command, cache)) := by
  constructor
  · intro hold
    have hgt : now - entry.timestamp > cfg.ttl := by omega
    simp only [get_cached_response, hen, Bool.not_true, Bool.false_eq_true, if_false, hmem,
      if_pos hgt]
    exact ⟨trivial, dictGet_dictDel _ _⟩
  · intro hfresh
    have hngt : ¬(now - entry.timestamp > cfg.ttl) := by omega
    simp only [get_cached_response, hen, Bool.not_true, Bool.false_eq_true, if_false, hmem,
      if_neg hngt]

/-- C4 witness: a concrete entry stored at time 0 with the default 7-day
TTL is a miss (and is deleted) when looked up at time 700000, and a hit
when looked up at time 1000. -/
theorem cache_ttl_expiry_witness :
    (get_cached_response ⟨604800, 1000, true⟩
      [(generate_cache_key "list files" "https://cmd.xaw.me" none none none,
        ⟨0, "list files", "ls -la", "https://cmd.xaw.me", none, none⟩)]
      700000 "list files" "https://cmd.xaw.me" none none none).1 = none ∧
    dictGet (get_cached_response ⟨604800, 1000, true⟩
      [(generate_cache_key "list files" "https://cmd.xaw.me" none none none,
        ⟨0, "list files", "ls -la", "https://cmd.xaw.me", none, none⟩)]
      700000 "list files" "https://cmd.xaw.me" none none none).2
      (generate_cache_key "list files" "https://cmd.xaw.me" none none none) = none ∧
    get_cached_response ⟨604800, 1000, true⟩
      [(generate_cache_key "list files" "https://cmd.xaw.me" none none none,
        ⟨0, "list files", "ls -la", "https://cmd.xaw.me", none, none⟩)]
      1000 "list files" "https://cmd.xaw.me" none none none =
      (some "ls -la",
        [(generate_cache_key "list files" "https://cmd.xaw.me" none none none,
          ⟨0, "list files", "ls -la", "https://cmd.xaw.me", none, none⟩)]) := by
  have h1 := (cache_ttl_expiry ⟨604800, 1000, true⟩
    [(generate_cache_key "list files" "https://cmd.xaw.me" none none none,
      ⟨0, "list files", "ls -la", "https://cmd.xaw.me", none, none⟩)]
    700000 "list files" "https://cmd.xaw.me" none none none
    ⟨0, "list files", "ls -la", "https://cmd.xaw.me", none, none⟩
    rfl (by simp [dictGet])).1 (by decide)
  have h2 := (cache_ttl_expiry ⟨604800, 1000, true⟩
    [(generate_cache_key "list files" "https://cmd.xaw.me" none none none,
      ⟨0, "list files", "ls -la", "https://cmd.xaw.me", none, none⟩)]
    1000 "list files" "https://cmd.xaw.me" none none none
    ⟨0, "list files", "ls -la", "https://cmd.xaw.me", none, none⟩
    rfl (by simp [dictGet])).2 (by decide)
  exact ⟨h1.1, h1.2, h2⟩

/-! ### Sorting lemmas -/

theorem sortByTimestamp_perm (l : Cache) : List.Perm (sortByTimestamp l) l :=
  List.mergeSort_perm l _

theorem sortByTimestamp_pairwise (l : Cache) :
    (sortByTimestamp l).Pairwise fun a b => a.2.timestamp ≤ b.2.timestamp := by
  have h := @List.sorted_mergeSort (String × CacheEntry)
    (fun a b => decide (a.2.timestamp ≤ b.2.timestamp))
    (fun a b c h1 h2 => by
      simp only [decide_eq_true_eq] at h1 h2 ⊢
      omega)
    (fun a b => by
      simp only [Bool.or_eq_true, decide_eq_true_eq]
      omega)
    l
  exact h.imp fun hab => by simpa using hab

/-- After the insert stage of `set_cached_response`, the entry with the
strictly largest timestamp survives the trimming stage and is found by
`dictGet`. -/
theorem dictGet_after_trim (m : Nat) (c1 : Cache) (k : String) (e : CacheEntry)
    (hnodup : (c1.map Prod.fst).Nodup)
    (hmem : (k, e) ∈ c1)
    (hmax : ∀ p ∈ c1, p ≠ (k, e) → p.2.timestamp < e.timestamp) :
    dictGet (if c1.length > m then
        (if m = 0 then sortByTimestamp c1 else takeLast m (sortByTimestamp c1))
      else c1) k = some e := by
  have hperm : List.Perm (sortByTimestamp c1) c1 := sortByTimestamp_perm c1
  have hnodupS : ((sortByTimestamp c1).map Prod.fst).Nodup :=
    (hperm.map Prod.fst).nodup_iff.mpr hnodup
  by_cases htrig : c1.length > m
  · rw [if_pos htrig]
    by_cases hz : m = 0
    · rw [if_pos hz]
      exact dictGet_of_mem_nodupKeys (hperm.mem_iff.mpr hmem) hnodupS
    · rw [if_neg hz]
      have hmemS : (k, e) ∈ sortByTimestamp c1 := hperm.mem_iff.mpr hmem
      have hsplit := List.take_append_drop
        ((sortByTimestamp c1).length - m) (sortByTimestamp c1)
      have hkeep : (k, e) ∈ takeLast m (sortByTimestamp c1) := by
        rcases List.mem_append.mp (by rw [hsplit]; exact hmemS) with htake | hdrop
        · exfalso
          have hslen : (sortByTimestamp c1).length = c1.length := hperm.length_eq
          have hdroplen :
              ((sortByTimestamp c1).drop ((sortByTimestamp c1).length - m)).length = m := by
            rw [List.length_drop]
            omega
          have hne : (sortByTimestamp c1).drop ((sortByTimestamp c1).length - m) ≠ [] := by
            intro hnil
            rw [hnil] at hdroplen
            simp at hdroplen
            omega
          obtain ⟨b, hb⟩ := List.exists_mem_of_ne_nil _ hne
          have hpw := sortByTimestamp_pairwise c1
          rw [← hsplit] at hpw
          have hle := (List.pairwise_append.mp hpw).2.2 _ htake _ hb
          have hle' : e.timestamp ≤ b.2.timestamp := hle
          have hbmemS : b ∈ sortByTimestamp c1 := by
            rw [← hsplit]
            exact List.mem_append.mpr (.inr hb)
          by_cases hbe : b = (k, e)
          · have hmapnodup := hnodupS
            rw [← hsplit, List.map_append] at hmapnodup
            exact List.disjoint_of_nodup_append hmapnodup
              (List.mem_map.mpr ⟨(k, e), htake, rfl⟩)
              (List.mem_map.mpr ⟨(k, e), hbe ▸ hb, rfl⟩)
          · have hblt := hmax b (hperm.mem_iff.mp hbmemS) hbe
            omega
        · exact hdrop
      have hsub : List.Sublist ((takeLast m (sortByTimestamp c1)).map Prod.fst)
          ((sortByTimestamp c1).map Prod.fst) :=
        List.Sublist.map Prod.fst (List.drop_sublist _ _)
      exact dictGet_of_mem_nodupKeys hkeep (List.Nodup.sublist hsub hnodupS)
  · rw [if_neg htrig]
    exact dictGet_of_mem_nodupKeys hmem hnodup

/-! ### C2: eviction bound -/

/-- C2 counterexample: with the configured `max_size = 0` (and caching
enabled), storing into an empty cache leaves 1 entry — the Python slice
`entries[-0:]` keeps the whole list — so the cache does not hold at most
`max_size` entries. -/
theorem eviction_fails_at_max_size_zero :
    (set_cached_response ⟨604800, 0, true⟩ [] 0 "q" "c" "https://cmd.xaw.me"
      none none none).length = 1 ∧ ¬(1 ≤ 0) := by
  constructor
  · simp [set_cached_response, dictSet, sortByTimestamp]
  · decide

/-- C2 (amended): with caching enabled and a positive `max_size`, after a
store the cache holds at most `max_size` entries; when the insertion makes
the size exceed `max_size`, the result has exactly `max_size` entries and
is the most-recent tail of the timestamp-sorted entries: every evicted
entry's timestamp is at most every surviving entry's timestamp. -/
theorem cache_eviction_bound (cfg : CacheConfig) (cache : Cache) (now : Int)
    (query command api_url : String) (provider api_key model : Option String)
    (hen : cfg.enabled = true) (hsz : 1 ≤ cfg.max_size) :
    (set_cached_response cfg cache now query command api_url provider api_key model).length
      ≤ cfg.max_size ∧
    (cfg.max_size <
        (dictSet cache (generate_cache_key query api_url provider api_key model)
          ⟨now, query, command, api_url, provider, model⟩).length →
      (set_cached_response cfg cache now query command api_url provider api_key model).length
        = cfg.max_size ∧
      ∃ evicted,
        evicted ++
            set_cached_response cfg cache now query command api_url provider api_key model =
          sortByTimestamp (dictSet cache
            (generate_cache_key query api_url provider api_key model)
            ⟨now, query, command, api_url, provider, model⟩) ∧
        ∀ p ∈ evicted,
          ∀ s ∈ set_cached_response cfg cache now query command api_url provider api_key model,
            p.2.timestamp ≤ s.2.timestamp) := by
  simp only [set_cached_response, hen, Bool.not_true, Bool.false_eq_true, if_false]
  generalize dictSet cache (generate_cache_key query api_url provider api_key model)
    ⟨now, query, command, api_url, provider, model⟩ = c1
  by_cases htrig : c1.length > cfg.max_size
  · rw [if_pos htrig, if_neg (by omega : ¬cfg.max_size = 0)]
    have hslen : (sortByTimestamp c1).length = c1.length := (sortByTimestamp_perm c1).length_eq
    have hlen : (takeLast cfg.max_size (sortByTimestamp c1)).length = cfg.max_size := by
      rw [takeLast_length]
      omega
    refine ⟨le_of_eq hlen, fun _ => ⟨hlen, ?_⟩⟩
    refine ⟨(sortByTimestamp c1).take ((sortByTimestamp c1).length - cfg.max_size),
      List.take_append_drop _ _, ?_⟩
    intro p hp s hs
    have hpw := sortByTimestamp_pairwise c1
    rw [← List.take_append_drop ((sortByTimestamp c1).length - cfg.max_size)
      (sortByTimestamp c1)] at hpw
    exact (List.pairwise_append.mp hpw).2.2 p hp s hs
  · rw [if_neg htrig]
    exact ⟨by omega, fun hcon => absurd hcon htrig⟩

/-- C2 (amended) witness: with `max_size = 1`, storing a third entry into a
two-entry cache leaves at most one — exactly one — entry. -/
theorem cache_eviction_bound_witness :
    (set_cached_response ⟨604800, 1, true⟩
      [("k0", ⟨0, "q0", "c0", "u", none, none⟩), ("k1", ⟨1, "q1", "c1", "u", none, none⟩)]
      2 "q2" "c2" "u" none none none).length ≤ 1 ∧
    (set_cached_response ⟨604800, 1, true⟩
      [("k0", ⟨0, "q0", "c0", "u", none, none⟩), ("k1", ⟨1, "q1", "c1", "u", none, none⟩)]
      2 "q2" "c2" "u" none none none).length = 1 := by
  have h := cache_eviction_bound ⟨604800, 1, true⟩
    [("k0", ⟨0, "q0", "c0", "u", none, none⟩), ("k1", ⟨1, "q1", "c1", "u", none, none⟩)]
    2 "q2" "c2" "u" none none none rfl (by decide)
  have hlt : 1 <
      (dictSet [("k0", ⟨0, "q0", "c0", "u", none, none⟩),
          ("k1", ⟨1, "q1", "c1", "u", none, none⟩)]
        (generate_cache_key "q2" "u" none none none)
        ⟨2, "q2", "c2", "u", none, none⟩).length := by
    have h2 := length_le_dictSet
      [("k0", ⟨0, "q0", "c0", "u", none, none⟩), ("k1", ⟨1, "q1", "c1", "u", none, none⟩)]
      (generate_cache_key "q2" "u" none none none) ⟨2, "q2", "c2", "u", none, none⟩
    simp only [List.length_cons, List.length_nil] at h2
    omega
  exact ⟨h.1, (h.2 hlt).1⟩

/-! ### C5: store/lookup round trip -/

/-- C5: with caching enabled, a store followed by a lookup with identical
parameters within the TTL returns exactly the stored command.  The prior
cache state is an arbitrary well-formed dictionary (no duplicate keys)
whose entries were all written strictly before the store time `now`, and
`later - now ≤ ttl` says the lookup happens within the TTL. -/
theorem cache_round_trip (cfg : CacheConfig) (cache : Cache) (now later : Int)
    (query command api_url : String) (provider api_key model : Option String)
    (hen : cfg.enabled = true)
    (hkeys : (cache.map Prod.fst).Nodup)
    (hfresh : ∀ p ∈ cache, p.2.timestamp < now)
    (httl : later - now ≤ cfg.ttl) :
    (get_cached_response cfg
      (set_cached_response cfg cache now query command api_url provider api_key model)
      later query api_url provider api_key model).1 = some command := by
  have key : dictGet
      (set_cached_response cfg cache now query command api_url provider api_key model)
      (generate_cache_key query api_url provider api_key model) =
      some ⟨now, query, command, api_url, provider, model⟩ := by
    have hset : set_cached_response cfg cache now query command api_url provider api_key model =
        (if (dictSet cache (generate_cache_key query api_url provider api_key model)
              ⟨now, query, command, api_url, provider, model⟩).length > cfg.max_size then
          (if cfg.max_size = 0 then
            sortByTimestamp (dictSet cache
              (generate_cache_key query api_url provider api_key model)
              ⟨now, query, command, api_url, provider, model⟩)
          else
            takeLast cfg.max_size (sortByTimestamp (dictSet cache
              (generate_cache_key query api_url provider api_key model)
              ⟨now, query, command, api_url, provider, model⟩)))
        else
          dictSet cache (generate_cache_key query api_url provider api_key model)
            ⟨now, query, command, api_url, provider, model⟩) := by
      simp only [set_cached_response, hen, Bool.not_true, Bool.false_eq_true, if_false]
    rw [hset]
    apply dictGet_after_trim
    · exact nodupKeys_dictSet hkeys
    · exact self_mem_dictSet _ _ _
    · intro p hp hne
      rcases mem_dictSet hp with h1 | h2
      · exact absurd h1 hne
      · simpa using hfresh p h2
  simp only [get_cached_response, hen, Bool.not_true, Bool.false_eq_true, if_false, key]
  rw [if_neg (show ¬(later -
      (⟨now, query, command, api_url, provider, model⟩ : CacheEntry).timestamp > cfg.ttl)
    by show ¬(later - now > cfg.ttl); omega)]

/-- C5 witness: storing `list files ↦ ls -la` at time 0 into an empty
cache and looking it up at time 100 (within the default 7-day TTL) with
identical parameters returns `ls -la`. -/
theorem cache_round_trip_witness :
    (∀ p ∈ ([] : Cache), p.2.timestamp < 0) ∧
    ((0 : Int) ≤ 604800) ∧
    (get_cached_response ⟨604800, 1000, true⟩
      (set_cached_response ⟨604800, 1000, true⟩ [] 0 "list files" "ls -la"
        "https://cmd.xaw.me" none none none)
      100 "list files" "https://cmd.xaw.me" none none none).1 = some "ls -la" := by
  refine ⟨by simp, by decide, ?_⟩
  exact cache_round_trip ⟨604800, 1000, true⟩ [] 0 100 "list files" "ls -la"
    "https://cmd.xaw.me" none none none rfl (by simp) (by simp) (by decide)

end Clixaw
